import Mathlib

/-!
Shallow embedding of the Galamsay analysis pipeline
(`analysis.py` and `database.py` of Jaytech9/galamsay-analysis).

Conventions of the embedding:
* Python `str.strip()` is modelled by `pyStrip` (removes the ASCII
  whitespace characters relevant here from both ends).
* Python `int(s)` is modelled by `parseIntPy`: optional sign, then a
  non-empty ASCII digit sequence in which single underscores may appear
  between digits, as CPython accepts.
* Python dicts preserve insertion order; they are modelled by
  association lists updated in place (`updD`).
* Python `sorted(xs, key=k, reverse=True)` is a stable descending sort;
  it is modelled by the stable insertion sort `sortByDesc` (any two
  stable sorts of the same key agree extensionally).
* Python computes `sum(sites) / len(sites)` in IEEE-754 binary64 and
  `round(x, 2)` correctly rounds that double to two decimals and back
  to a double.  This host pipeline is modelled exactly by `pyAvg`:
  `floatApprox` is binary64 round-to-nearest-even (subnormals
  included, finite range assumed — means from validator data lie in
  `[0, 500]`), and `pyRound2` applies two-decimal round-half-to-even
  to the double's exact value and re-rounds to binary64, which is what
  CPython's correctly-rounded `round` does.  `round2q` is the
  idealised exact-rational rounding of the mean, kept to exhibit where
  the host result differs from it.
* Exceptions are modelled by `Except String` / `Option`; the message is
  the message built by the source.
* The SQLite store is modelled by `Store`: the schema objects created
  by `CREATE TABLE/INDEX IF NOT EXISTS` as name lists, each table as a
  list of typed rows appended in insertion order.  The serialized JSON
  blob columns hold the structured value itself (for the values at
  hand, `json.loads` after `json.dumps` is the identity).
-/

/-- Accumulate an ASCII digit sequence in which a single underscore may
separate two digits, as accepted by CPython integer literals. -/
def parseDigitsAux : Nat → List Char → Option Nat
  | acc, [] => some acc
  | acc, '_' :: c :: cs =>
      if c.isDigit then parseDigitsAux (10 * acc + (c.toNat - 48)) cs else none
  | _, ['_'] => none
  | acc, c :: cs =>
      if c.isDigit then parseDigitsAux (10 * acc + (c.toNat - 48)) cs else none

/-- A digit sequence must start with a digit (not an underscore). -/
def parseDigitsStart : List Char → Option Nat
  | [] => none
  | c :: cs => if c.isDigit then parseDigitsAux (c.toNat - 48) cs else none

/-- Model of Python `str.strip()`: drop whitespace from both ends
(the whitespace characters occurring in CSV data: space, tab, CR, LF). -/
def pyStrip (s : String) : String :=
  ⟨((s.data.dropWhile Char.isWhitespace).reverse.dropWhile
      Char.isWhitespace).reverse⟩

/-- Model of Python `int(s)` on a stripped string: optional sign, then
digits (with CPython's single-underscore separators). Returns `none`
where `int` raises `ValueError`. -/
def parseIntPy (s : String) : Option Int :=
  match (pyStrip s).data with
  | '+' :: rest => (parseDigitsStart rest).map Int.ofNat
  | '-' :: rest => (parseDigitsStart rest).map (fun n => -(n : Int))
  | rest => (parseDigitsStart rest).map Int.ofNat

/-- The fixed whitelist of the 16 Ghanaian regions (`valid_regions` in
`load_data`, analysis.py lines 40-44). -/
def validRegions : List String :=
  ["Ashanti", "Western", "Upper East", "Greater Accra", "Northern",
   "Central", "Bono", "Upper West", "Volta", "Eastern", "Bono East",
   "Savannah", "Oti", "North East", "Ahafo", "Western North"]

/-- One raw CSV row: the values found under the three required columns
(`row.get` in the source; other columns do not influence validation). -/
structure RawRow where
  city : String
  region : String
  sites : String
deriving DecidableEq, Repr

/-- A cleaned record as appended to `valid_records`
(analysis.py lines 117-121). -/
structure ValidRecord where
  city : String
  region : String
  num_sites : Int
deriving DecidableEq, Repr

/-- A rejected row as appended to `invalid_records`
(row number, raw data, reason string). -/
structure InvalidRecord where
  row : Nat
  data : RawRow
  reason : String
deriving DecidableEq, Repr

/-- Outcome of validating a single row. -/
inductive RowResult where
  | valid (r : ValidRecord)
  | invalid (r : InvalidRecord)
deriving DecidableEq, Repr

/-- Per-row validation logic of the `for row_num, row in enumerate`
loop body of `load_data` (analysis.py lines 55-121): the checks run in
source order and the first failure wins. -/
def validateRow (row_num : Nat) (row : RawRow) : RowResult :=
  let city := pyStrip row.city
  let region := pyStrip row.region
  let sites_str := pyStrip row.sites
  if city = "" then .invalid ⟨row_num, row, "Missing city name"⟩
  else if region = "" then .invalid ⟨row_num, row, "Missing region"⟩
  else if region ∉ validRegions then
    .invalid ⟨row_num, row, "Invalid region: " ++ region⟩
  else
    match parseIntPy sites_str with
    | none => .invalid ⟨row_num, row, "Non-numeric site count: " ++ sites_str⟩
    | some n =>
      if n < 0 then .invalid ⟨row_num, row, "Negative site count: " ++ toString n⟩
      else if n > 500 then
        .invalid ⟨row_num, row, "Unrealistic site count (outlier): " ++ toString n⟩
      else .valid ⟨city, region, n⟩

/-- The required header set of `load_data` (analysis.py line 51). -/
def requiredHeaders : List String := ["City", "Region", "Number_of_Galamsay_Sites"]

/-- `required_headers.issubset(set(fieldnames))`. -/
def headersOk (hs : List String) : Bool := requiredHeaders.all (fun h => h ∈ hs)

/-- All row outcomes, with Python's `enumerate(reader, start=2)` row
numbering. -/
def rowResults (rows : List RawRow) : List RowResult :=
  (rows.enumFrom 2).map (fun p => validateRow p.1 p.2)

/-- The `valid_records` list accumulated by `load_data`. -/
def validsOf (rows : List RawRow) : List ValidRecord :=
  (rowResults rows).filterMap (fun r => match r with
    | .valid v => some v
    | .invalid _ => none)

/-- The `invalid_records` list accumulated by `load_data`. -/
def invalidsOf (rows : List RawRow) : List InvalidRecord :=
  (rowResults rows).filterMap (fun r => match r with
    | .invalid v => some v
    | .valid _ => none)

/-- Embedding of `load_data` (analysis.py lines 16-129) after the file
has been read: input is the header list and the data rows.  Errors model
the `ValueError`s raised by the source. -/
def load_data (hs : List String) (rows : List RawRow) :
    Except String (List ValidRecord × List InvalidRecord) :=
  if ¬ headersOk hs then .error "CSV file missing required headers"
  else if (validsOf rows).isEmpty then
    .error "No valid data records found in the file"
  else .ok (validsOf rows, invalidsOf rows)

/-- Embedding of `get_total_sites` (analysis.py lines 132-144). -/
def get_total_sites (data : List ValidRecord) : Int :=
  match data with
  | [] => 0
  | _ => (data.map (fun r => r.num_sites)).sum

/-- Insertion-ordered dict update: `m[k] = f(m.get(k, d))`.  The value of
an existing key is updated in place; a new key is appended at the end,
as a Python dict does. -/
def updD {β : Type} (m : List (String × β)) (k : String) (f : β → β) (d : β) :
    List (String × β) :=
  match m with
  | [] => [(k, f d)]
  | (k1, v) :: rest =>
      if k1 = k then (k1, f v) :: rest else (k1, v) :: updD rest k f d

/-- Association-list lookup (Python `m[k]` / `m.get(k)`). -/
def alook {β : Type} (m : List (String × β)) (k : String) : Option β :=
  match m with
  | [] => none
  | (k1, v) :: rest => if k1 = k then some v else alook rest k

/-- The key list of an association list, in insertion order. -/
def keysOf {β : Type} (m : List (String × β)) : List String :=
  m.map (fun p => p.1)

/-- One step of the `region_totals` accumulation of
`get_region_with_highest_sites` (analysis.py line 167). -/
def stepT (m : List (String × Int)) (rec : ValidRecord) : List (String × Int) :=
  updD m rec.region (fun v => v + rec.num_sites) 0

/-- The full `region_totals` dict (insertion-ordered). -/
def buildTotals (data : List ValidRecord) : List (String × Int) :=
  data.foldl stepT []

/-- Python `max(items, key=lambda x: x[1])` over a non-empty sequence:
keeps the current maximum and replaces it only on a strictly greater
key, so the first maximal element wins. -/
def maxPair (h : String × Int) (t : List (String × Int)) : String × Int :=
  t.foldl (fun b x => if b.2 < x.2 then x else b) h

/-- Embedding of `get_region_with_highest_sites`
(analysis.py lines 147-171). The inner `.error` branch is Python
`max()` raising on an empty sequence; it is unreachable because the
totals dict of a non-empty data list is non-empty. -/
def get_region_with_highest_sites (data : List ValidRecord) :
    Except String (String × Int) :=
  match data with
  | [] => .error "Cannot determine highest region from empty data"
  | _ =>
    match buildTotals data with
    | [] => .error "max() arg is an empty sequence"
    | h :: t => .ok (maxPair h t)

/-- Stable descending insertion by an integer key: the new element goes
after every element whose key is greater than or equal to its own, so
elements with equal keys keep their arrival order. -/
def insertByDesc {α : Type} (key : α → Int) (r : α) : List α → List α
  | [] => [r]
  | x :: xs => if key x < key r then r :: x :: xs else x :: insertByDesc key r xs

/-- Stable descending sort by an integer key, modelling Python
`sorted(xs, key=key, reverse=True)` (a stable descending sort). -/
def sortByDesc {α : Type} (key : α → Int) (l : List α) : List α :=
  l.foldl (fun acc r => insertByDesc key r acc) []

/-- Embedding of `get_cities_above_threshold`
(analysis.py lines 174-194). -/
def get_cities_above_threshold (data : List ValidRecord) (threshold : Int) :
    Except String (List ValidRecord) :=
  if threshold < 0 then .error "Threshold cannot be negative"
  else .ok (sortByDesc (fun r => r.num_sites)
    (data.filter (fun r => threshold < r.num_sites)))

/-- Round `N / D` (with `D > 0`) to the nearest integer, ties to the
even integer; the building block of the binary64 and decimal rounding
steps below. -/
def roundHalfEvenDiv (N D : Int) : Int :=
  let f := N / D
  let r := N % D
  if 2 * r < D then f
  else if D < 2 * r then f + 1
  else if f % 2 = 0 then f else f + 1

/-- Number of binary digits of `n` (0 for 0), computed with `n` itself
as recursion fuel so that it is structural. -/
def bitLenAux : Nat → Nat → Nat
  | 0, _ => 0
  | fuel + 1, n =>
      if n = 0 then 0
      else if n = 1 then 1
      else bitLenAux fuel (n / 2) + 1

/-- `bitLen n = ⌊log2 n⌋ + 1` for `n ≥ 1`, and `0` for `0`. -/
def bitLen (n : Nat) : Nat := bitLenAux n n

/-- Decides `2 ^ k ≤ a / b` for positive naturals by cross
multiplication. -/
def pow2Le (k : Int) (a b : Nat) : Bool :=
  if 0 ≤ k then b * 2 ^ k.toNat ≤ a else b ≤ a * 2 ^ (-k).toNat

/-- The IEEE-754 binary64 double nearest to `q` (round to nearest,
ties to even mantissa), as its exact rational value: 53-bit mantissa,
subnormals below `2 ^ (-1022)` with least exponent `2 ^ (-1074)`.
Finite range is assumed (no overflow handling); every value this
development feeds it is far inside the finite range. -/
def floatApprox (q : Rat) : Rat :=
  if q.num = 0 then 0
  else
    let a : Nat := q.num.natAbs
    let b : Nat := q.den
    let k0 : Int := (bitLen a : Int) - (bitLen b : Int)
    let k : Int := if pow2Le k0 a b then k0 else k0 - 1
    let p : Int := max (k - 52) (-1074)
    let N : Int := (a : Int) * 2 ^ (Int.toNat (-p))
    let D : Int := (b : Int) * 2 ^ (Int.toNat p)
    let m : Int := roundHalfEvenDiv N D
    let mag : Rat :=
      if 0 ≤ p then ((m * 2 ^ Int.toNat p : Int) : Rat)
      else mkRat m (2 ^ Int.toNat (-p))
    if q.num < 0 then -mag else mag

/-- CPython `round(x, 2)` on a float whose exact value is `x`: the
double nearest to the two-decimal round-half-to-even of the double's
exact value (CPython rounds correctly via its decimal conversion). -/
def pyRound2 (x : Rat) : Rat :=
  floatApprox (mkRat (roundHalfEvenDiv (100 * x.num) (x.den : Int)) 100)

/-- The value Python's `round(sum(sites) / len(sites), 2)` stores:
binary64 division, then host rounding to two decimals. -/
def pyAvg (sum : Int) (len : Nat) : Rat :=
  pyRound2 (floatApprox (mkRat sum len))

/-- Idealised exact-rational two-decimal round-half-to-even of `q`,
the reading of rounded to 2 decimal places that ignores the
binary-float mean; kept to state where the program differs from it. -/
def round2q (q : Rat) : Rat :=
  let f : Int := ⌊q * 100⌋
  let r : Rat := q * 100 - (f : Rat)
  if r < 1/2 then (f : Rat) / 100
  else if 1/2 < r then ((f + 1 : Int) : Rat) / 100
  else if f % 2 = 0 then (f : Rat) / 100 else ((f + 1 : Int) : Rat) / 100

/-- One step of the `region_data` accumulation used by
`get_average_sites_per_region` and `get_region_summary`
(analysis.py lines 211-216 and 240-245). -/
def stepG (m : List (String × List Int)) (rec : ValidRecord) :
    List (String × List Int) :=
  updD m rec.region (fun l => l ++ [rec.num_sites]) []

/-- The full `region_data` dict: region to the list of its site counts
in input order. -/
def buildGroups (data : List ValidRecord) : List (String × List Int) :=
  data.foldl stepG []

/-- The site counts of one region, in input order (specification-side
view used to state theorems). -/
def regionCounts (data : List ValidRecord) (r : String) : List Int :=
  (data.filter (fun x => x.region = r)).map (fun x => x.num_sites)

/-- The summed site count of one region. -/
def regionTotal (data : List ValidRecord) (r : String) : Int :=
  (regionCounts data r).sum

/-- Embedding of `get_average_sites_per_region`
(analysis.py lines 197-223): insertion-ordered mapping region to
rounded mean. -/
def get_average_sites_per_region (data : List ValidRecord) :
    List (String × Rat) :=
  match data with
  | [] => []
  | _ => (buildGroups data).map
      (fun p => (p.1, pyAvg p.2.sum p.2.length))

/-- Python `max(sites)` over a list known non-empty at the call site
(the default for `[]` is never reached in the source). -/
def maxD : List Int → Int
  | [] => 0
  | h :: t => t.foldl max h

/-- Python `min(sites)`, as `maxD`. -/
def minD : List Int → Int
  | [] => 0
  | h :: t => t.foldl min h

/-- One entry of the region summary (analysis.py lines 250-257). -/
structure RegionSummary where
  region : String
  total_sites : Int
  city_count : Nat
  average_sites : Rat
  max_sites : Int
  min_sites : Int
deriving DecidableEq, Repr

/-- Embedding of `get_region_summary` (analysis.py lines 226-260). -/
def get_region_summary (data : List ValidRecord) : List RegionSummary :=
  match data with
  | [] => []
  | _ => sortByDesc (fun s => s.total_sites)
      ((buildGroups data).map (fun p =>
        { region := p.1
          total_sites := p.2.sum
          city_count := p.2.length
          average_sites := pyAvg p.2.sum p.2.length
          max_sites := maxD p.2
          min_sites := minD p.2 }))

/-- The `cities_above_threshold` sub-dictionary of the result of
`run_full_analysis` (analysis.py lines 292-296). -/
structure CitiesAbove where
  threshold : Int
  count : Nat
  cities : List ValidRecord
deriving DecidableEq, Repr

/-- The result dictionary of `run_full_analysis`
(analysis.py lines 284-301). -/
structure AnalysisResults where
  total_sites : Int
  total_valid_records : Nat
  total_invalid_records : Nat
  region_with_highest_sites : String × Int
  cities_above_threshold : CitiesAbove
  average_sites_per_region : List (String × Rat)
  region_summary : List RegionSummary
  invalid_records : List InvalidRecord
  valid_data : List ValidRecord
deriving DecidableEq, Repr

/-- Embedding of `run_full_analysis` (analysis.py lines 263-301):
validation, then every aggregate, assembled into one result; any error
from a sub-step propagates unchanged. -/
def run_full_analysis (hs : List String) (rows : List RawRow)
    (threshold : Int) : Except String AnalysisResults :=
  match load_data hs rows with
  | .error e => .error e
  | .ok (valid_data, invalid_data) =>
    match get_region_with_highest_sites valid_data with
    | .error e => .error e
    | .ok hr =>
      match get_cities_above_threshold valid_data threshold with
      | .error e => .error e
      | .ok cities =>
        .ok { total_sites := get_total_sites valid_data
              total_valid_records := valid_data.length
              total_invalid_records := invalid_data.length
              region_with_highest_sites := hr
              cities_above_threshold :=
                ⟨threshold, cities.length, cities⟩
              average_sites_per_region :=
                get_average_sites_per_region valid_data
              region_summary := get_region_summary valid_data
              invalid_records := invalid_data
              valid_data := valid_data }

/-- One row of the `galamsay_sites` table (database.py lines 62-71). -/
structure SiteRow where
  city : String
  region : String
  num_sites : Int
  batch_id : String
deriving DecidableEq, Repr

/-- One row of the `analysis_log` table (database.py lines 74-90).  The
three trailing fields are the serialized JSON blob columns, held here in
structured form (serialize then deserialize is the identity on them). -/
structure LogRow where
  batch_id : String
  total_sites : Int
  total_valid_records : Nat
  total_invalid_records : Nat
  highest_region : String
  highest_region_sites : Int
  threshold_used : Int
  cities_above_threshold_count : Nat
  average_per_region_json : List (String × Rat)
  region_summary_json : List RegionSummary
  cities_above_threshold_json : List ValidRecord
deriving DecidableEq, Repr

/-- One row of the `invalid_records` table (database.py lines 93-104). -/
structure InvalidRow where
  batch_id : String
  row_number : Nat
  city : String
  region : String
  num_sites_raw : String
  reason : String
deriving DecidableEq, Repr

/-- The SQLite store: schema objects created so far (table and index
names) and the three row collections in insertion order. -/
structure Store where
  tables : List String
  indexes : List String
  galamsay_sites : List SiteRow
  analysis_log : List LogRow
  invalid_records : List InvalidRow
deriving DecidableEq, Repr

/-- `CREATE TABLE IF NOT EXISTS name`: records the name once. -/
def createTableIfNotExists (s : Store) (name : String) : Store :=
  if name ∈ s.tables then s else { s with tables := s.tables ++ [name] }

/-- `CREATE INDEX IF NOT EXISTS name`: records the name once. -/
def createIndexIfNotExists (s : Store) (name : String) : Store :=
  if name ∈ s.indexes then s else { s with indexes := s.indexes ++ [name] }

/-- Embedding of `init_database` (database.py lines 46-120): the three
`CREATE TABLE IF NOT EXISTS` and three `CREATE INDEX IF NOT EXISTS`
statements, in source order. -/
def init_database (s : Store) : Store :=
  let s1 := createTableIfNotExists s "galamsay_sites"
  let s2 := createTableIfNotExists s1 "analysis_log"
  let s3 := createTableIfNotExists s2 "invalid_records"
  let s4 := createIndexIfNotExists s3 "idx_galamsay_region"
  let s5 := createIndexIfNotExists s4 "idx_galamsay_batch"
  createIndexIfNotExists s5 "idx_analysis_batch"

/-- One `INSERT` statement issued by `save_analysis_to_database`. -/
inductive DbInsert where
  | site (r : SiteRow)
  | log (r : LogRow)
  | invalid (r : InvalidRow)
deriving DecidableEq, Repr

/-- Apply one insert to the store (append to the addressed table). -/
def applyInsert (s : Store) : DbInsert → Store
  | .site r => { s with galamsay_sites := s.galamsay_sites ++ [r] }
  | .log r => { s with analysis_log := s.analysis_log ++ [r] }
  | .invalid r => { s with invalid_records := s.invalid_records ++ [r] }

/-- The `analysis_log` row written by `save_analysis_to_database`
(database.py lines 169-188). -/
def logRowOf (res : AnalysisResults) (bid : String) : LogRow :=
  { batch_id := bid
    total_sites := res.total_sites
    total_valid_records := res.total_valid_records
    total_invalid_records := res.total_invalid_records
    highest_region := res.region_with_highest_sites.1
    highest_region_sites := res.region_with_highest_sites.2
    threshold_used := res.cities_above_threshold.threshold
    cities_above_threshold_count := res.cities_above_threshold.count
    average_per_region_json := res.average_sites_per_region
    region_summary_json := res.region_summary
    cities_above_threshold_json := res.cities_above_threshold.cities }

/-- The full insert sequence of `save_analysis_to_database`
(database.py lines 160-203): one site row per valid record, then the
log row, then one row per invalid record. -/
def insertsOf (res : AnalysisResults) (bid : String) : List DbInsert :=
  res.valid_data.map (fun r => .site ⟨r.city, r.region, r.num_sites, bid⟩)
    ++ [.log (logRowOf res bid)]
    ++ res.invalid_records.map (fun inv =>
        .invalid ⟨bid, inv.row, inv.data.city, inv.data.region,
                  inv.data.sites, inv.reason⟩)

/-- Embedding of `save_analysis_to_database` (database.py lines
133-207) on the success path: initialize the schema, run every insert,
commit; returns the updated store and the batch id.  The timestamp
batch id generated by `generate_batch_id` is a parameter. -/
def save_analysis_to_database (res : AnalysisResults) (bid : String)
    (s : Store) : Store × String :=
  ((insertsOf res bid).foldl applyInsert (init_database s), bid)

/-- `save_analysis_to_database` with a failure oracle: `oracle i = true`
means the i-th `INSERT` raises.  All inserts run on one connection with
a single final `commit()`; if any insert raises, the connection is
closed by the context manager without a commit and SQLite rolls the
implicit transaction back, so the visible store is the pre-save store
(schema initialization included).  Returns the visible store and
`some batch_id` on success, `none` on failure. -/
def runSaveOracle (oracle : Nat → Bool) (res : AnalysisResults)
    (bid : String) (s : Store) : Store × Option String :=
  let s0 := init_database s
  let ins := insertsOf res bid
  if (List.range ins.length).any oracle then (s0, none)
  else (ins.foldl applyInsert s0, some bid)

/-- Embedding of `get_analysis_by_batch_id` (database.py lines
240-265): the first `analysis_log` row whose `batch_id` matches, with
the blob columns deserialized (held structured here). -/
def get_analysis_by_batch_id (bid : String) (s : Store) : Option LogRow :=
  (s.analysis_log.filter (fun r => r.batch_id = bid)).head?

/-- No row of any collection carries the given batch id. -/
def bidFresh (bid : String) (s : Store) : Prop :=
  (∀ r ∈ s.galamsay_sites, r.batch_id ≠ bid) ∧
  (∀ r ∈ s.analysis_log, r.batch_id ≠ bid) ∧
  (∀ r ∈ s.invalid_records, r.batch_id ≠ bid)

instance (bid : String) (s : Store) : Decidable (bidFresh bid s) := by
  unfold bidFresh; infer_instance

/-- The site rows a save of `res` under `bid` writes. -/
def expectedSites (res : AnalysisResults) (bid : String) : List SiteRow :=
  res.valid_data.map (fun r => ⟨r.city, r.region, r.num_sites, bid⟩)

/-- The invalid-record rows a save of `res` under `bid` writes. -/
def expectedInvalid (res : AnalysisResults) (bid : String) : List InvalidRow :=
  res.invalid_records.map (fun inv =>
    ⟨bid, inv.row, inv.data.city, inv.data.region, inv.data.sites, inv.reason⟩)

/-- First-occurrence deduplication with an explicit seen list: the
first-encounter order of the keys of an insertion-ordered dict. -/
def dedupAux : List String → List String → List String
  | [], _ => []
  | x :: t, seen =>
      if x ∈ seen then dedupAux t seen else x :: dedupAux t (seen ++ [x])

/-- The distinct values of a list in first-encounter order. -/
def dedupFirst (l : List String) : List String := dedupAux l []

/-- Append a name to a list unless already present (the effect of one
`CREATE ... IF NOT EXISTS` on the schema-object list). -/
def addIfAbsent (l : List String) (n : String) : List String :=
  if n ∈ l then l else l ++ [n]

attribute [ext] Store

instance {ε α : Type} [DecidableEq ε] [DecidableEq α] :
    DecidableEq (Except ε α) := fun a b =>
  match a, b with
  | .error e1, .error e2 =>
      if h : e1 = e2 then isTrue (by rw [h])
      else isFalse (by intro hh; cases hh; exact h rfl)
  | .error _, .ok _ => isFalse (by intro h; cases h)
  | .ok _, .error _ => isFalse (by intro h; cases h)
  | .ok v1, .ok v2 =>
      if h : v1 = v2 then isTrue (by rw [h])
      else isFalse (by intro hh; cases hh; exact h rfl)

/-- A one-row example input used by witnesses. -/
def exRow1 : RawRow := ⟨"A", "Ashanti", "25"⟩

/-- The analysis result of running the pipeline on `[exRow1]` with
threshold 10. -/
def exRes1 : AnalysisResults :=
  { total_sites := 25
    total_valid_records := 1
    total_invalid_records := 0
    region_with_highest_sites := ("Ashanti", 25)
    cities_above_threshold := ⟨10, 1, [⟨"A", "Ashanti", 25⟩]⟩
    average_sites_per_region := [("Ashanti", 25)]
    region_summary := [⟨"Ashanti", 25, 1, 25, 25, 25⟩]
    invalid_records := []
    valid_data := [⟨"A", "Ashanti", 25⟩] }

/-- Forty valid Ashanti records, thirty-nine of count 2 and one of
count 29: their mean is 107/40 = 2.675, a two-decimal tie whose
nearest double lies strictly below it. -/
def exRows40 : List ValidRecord :=
  List.replicate 39 ⟨"A", "Ashanti", 2⟩ ++ [⟨"B", "Ashanti", 29⟩]

/-! Schema lemmas for the store. -/

@[simp] theorem createTable_tables (s : Store) (n : String) :
    (createTableIfNotExists s n).tables = addIfAbsent s.tables n := by
  unfold createTableIfNotExists addIfAbsent; split <;> rfl

@[simp] theorem createTable_indexes (s : Store) (n : String) :
    (createTableIfNotExists s n).indexes = s.indexes := by
  unfold createTableIfNotExists; split <;> rfl

@[simp] theorem createTable_sites (s : Store) (n : String) :
    (createTableIfNotExists s n).galamsay_sites = s.galamsay_sites := by
  unfold createTableIfNotExists; split <;> rfl

@[simp] theorem createTable_log (s : Store) (n : String) :
    (createTableIfNotExists s n).analysis_log = s.analysis_log := by
  unfold createTableIfNotExists; split <;> rfl

@[simp] theorem createTable_invalid (s : Store) (n : String) :
    (createTableIfNotExists s n).invalid_records = s.invalid_records := by
  unfold createTableIfNotExists; split <;> rfl

@[simp] theorem createIndex_indexes (s : Store) (n : String) :
    (createIndexIfNotExists s n).indexes = addIfAbsent s.indexes n := by
  unfold createIndexIfNotExists addIfAbsent; split <;> rfl

@[simp] theorem createIndex_tables (s : Store) (n : String) :
    (createIndexIfNotExists s n).tables = s.tables := by
  unfold createIndexIfNotExists; split <;> rfl

@[simp] theorem createIndex_sites (s : Store) (n : String) :
    (createIndexIfNotExists s n).galamsay_sites = s.galamsay_sites := by
  unfold createIndexIfNotExists; split <;> rfl

@[simp] theorem createIndex_log (s : Store) (n : String) :
    (createIndexIfNotExists s n).analysis_log = s.analysis_log := by
  unfold createIndexIfNotExists; split <;> rfl

@[simp] theorem createIndex_invalid (s : Store) (n : String) :
    (createIndexIfNotExists s n).invalid_records = s.invalid_records := by
  unfold createIndexIfNotExists; split <;> rfl

@[simp] theorem init_tables (s : Store) :
    (init_database s).tables =
      addIfAbsent (addIfAbsent (addIfAbsent s.tables "galamsay_sites")
        "analysis_log") "invalid_records" := by
  simp [init_database]

@[simp] theorem init_indexes (s : Store) :
    (init_database s).indexes =
      addIfAbsent (addIfAbsent (addIfAbsent s.indexes "idx_galamsay_region")
        "idx_galamsay_batch") "idx_analysis_batch" := by
  simp [init_database]

@[simp] theorem init_sites (s : Store) :
    (init_database s).galamsay_sites = s.galamsay_sites := by
  simp [init_database]

@[simp] theorem init_log (s : Store) :
    (init_database s).analysis_log = s.analysis_log := by
  simp [init_database]

@[simp] theorem init_invalid (s : Store) :
    (init_database s).invalid_records = s.invalid_records := by
  simp [init_database]

theorem addIfAbsent_self_mem (l : List String) (n : String) :
    n ∈ addIfAbsent l n := by
  unfold addIfAbsent; split
  · assumption
  · simp

theorem addIfAbsent_mono {l : List String} {m : String} (n : String)
    (h : m ∈ l) : m ∈ addIfAbsent l n := by
  unfold addIfAbsent; split
  · exact h
  · simp [h]

theorem addIfAbsent_of_mem {l : List String} {n : String} (h : n ∈ l) :
    addIfAbsent l n = l := by
  unfold addIfAbsent; simp [h]

theorem addIfAbsent_nodup {l : List String} {n : String} (h : l.Nodup) :
    (addIfAbsent l n).Nodup := by
  unfold addIfAbsent; split
  · exact h
  · rename_i hn
    simp [List.nodup_append, h, hn]

theorem addIfAbsent_chain_idem (l : List String) (a b c : String) :
    addIfAbsent (addIfAbsent (addIfAbsent
      (addIfAbsent (addIfAbsent (addIfAbsent l a) b) c) a) b) c =
    addIfAbsent (addIfAbsent (addIfAbsent l a) b) c := by
  have ha : a ∈ addIfAbsent (addIfAbsent (addIfAbsent l a) b) c :=
    addIfAbsent_mono _ (addIfAbsent_mono _ (addIfAbsent_self_mem l a))
  rw [addIfAbsent_of_mem ha]
  have hb : b ∈ addIfAbsent (addIfAbsent (addIfAbsent l a) b) c :=
    addIfAbsent_mono _ (addIfAbsent_self_mem _ b)
  rw [addIfAbsent_of_mem hb]
  exact addIfAbsent_of_mem (addIfAbsent_self_mem _ c)

/-- Claim C8: `init_database` is idempotent — running schema creation a
second time on any store state changes nothing (so no error and no
duplicate schema objects), and on a store whose schema-object lists are
duplicate-free it keeps them duplicate-free. -/
theorem claim_C8 (s : Store) :
    init_database (init_database s) = init_database s ∧
    (s.tables.Nodup → (init_database s).tables.Nodup) ∧
    (s.indexes.Nodup → (init_database s).indexes.Nodup) := by
  refine ⟨?_, ?_, ?_⟩
  · ext1 <;> simp [addIfAbsent_chain_idem]
  · intro h
    simp only [init_tables]
    exact addIfAbsent_nodup (addIfAbsent_nodup (addIfAbsent_nodup h))
  · intro h
    simp only [init_indexes]
    exact addIfAbsent_nodup (addIfAbsent_nodup (addIfAbsent_nodup h))

/-- Witness for C8 at the empty store. -/
theorem claim_C8_witness :
    init_database (init_database ⟨[], [], [], [], []⟩) =
      init_database ⟨[], [], [], [], []⟩ ∧
    (init_database ⟨[], [], [], [], []⟩).tables.Nodup :=
  ⟨(claim_C8 ⟨[], [], [], [], []⟩).1,
   (claim_C8 ⟨[], [], [], [], []⟩).2.1 (by decide)⟩

/-! Aggregate bookkeeping lemmas. -/

theorem get_total_sites_eq_sum (data : List ValidRecord) :
    get_total_sites data = (data.map (fun r => r.num_sites)).sum := by
  cases data <;> simp [get_total_sites]

/-- Claim C10: every result produced by `run_full_analysis` is
internally consistent — the record counters equal the lengths of the
corresponding lists, the total equals the sum over the valid data, the
city count equals the length of the city list, and the recorded
threshold is the argument. -/
theorem claim_C10 (hs : List String) (rows : List RawRow) (t : Int)
    (res : AnalysisResults) (h : run_full_analysis hs rows t = .ok res) :
    res.total_valid_records = res.valid_data.length ∧
    res.total_invalid_records = res.invalid_records.length ∧
    res.total_sites = (res.valid_data.map (fun r => r.num_sites)).sum ∧
    res.cities_above_threshold.count =
      res.cities_above_threshold.cities.length ∧
    res.cities_above_threshold.threshold = t := by
  unfold run_full_analysis at h
  split at h
  · cases h
  · split at h
    · cases h
    · split at h
      · cases h
      · cases h
        exact ⟨rfl, rfl, get_total_sites_eq_sum _, rfl, rfl⟩

/-- Witness for C10 on the one-row input. -/
theorem claim_C10_witness :
    exRes1.total_valid_records = exRes1.valid_data.length ∧
    exRes1.total_invalid_records = exRes1.invalid_records.length ∧
    exRes1.total_sites = (exRes1.valid_data.map (fun r => r.num_sites)).sum ∧
    exRes1.cities_above_threshold.count =
      exRes1.cities_above_threshold.cities.length ∧
    exRes1.cities_above_threshold.threshold = 10 :=
  claim_C10 requiredHeaders [exRow1] 10 exRes1 (by decide)

/-! Stable descending insertion sort lemmas. -/

theorem insertByDesc_perm {α : Type} (key : α → Int) (r : α) (l : List α) :
    List.Perm (insertByDesc key r l) (r :: l) := by
  induction l with
  | nil => exact List.Perm.refl _
  | cons x xs ih =>
    unfold insertByDesc
    split
    · exact List.Perm.refl _
    · exact (ih.cons x).trans (List.Perm.swap r x xs)

theorem foldl_insertByDesc_perm {α : Type} (key : α → Int) :
    ∀ (l acc : List α),
      List.Perm (l.foldl (fun acc r => insertByDesc key r acc) acc) (acc ++ l) := by
  intro l
  induction l with
  | nil => intro acc; simp
  | cons h t ih =>
    intro acc
    have h1 : List.Perm (List.foldl (fun acc r => insertByDesc key r acc)
        (insertByDesc key h acc) t) (insertByDesc key h acc ++ t) := ih _
    refine h1.trans ?_
    have h2 : List.Perm (insertByDesc key h acc ++ t) ((h :: acc) ++ t) :=
      (insertByDesc_perm key h acc).append_right t
    refine h2.trans ?_
    exact (List.perm_middle).symm

theorem sortByDesc_perm {α : Type} (key : α → Int) (l : List α) :
    List.Perm (sortByDesc key l) l := by
  have h := foldl_insertByDesc_perm key l []
  simpa [sortByDesc] using h

theorem insertByDesc_sorted {α : Type} (key : α → Int) (r : α) {l : List α}
    (h : l.Pairwise (fun a b => key b ≤ key a)) :
    (insertByDesc key r l).Pairwise (fun a b => key b ≤ key a) := by
  induction l with
  | nil => simp [insertByDesc]
  | cons x xs ih =>
    unfold insertByDesc
    rw [List.pairwise_cons] at h
    split
    · rename_i hx
      refine List.pairwise_cons.mpr ⟨?_, List.pairwise_cons.mpr h⟩
      intro b hb
      rcases List.mem_cons.mp hb with hb | hb
      · subst hb; exact le_of_lt hx
      · exact le_trans (h.1 b hb) (le_of_lt hx)
    · rename_i hx
      push_neg at hx
      refine List.pairwise_cons.mpr ⟨?_, ih h.2⟩
      intro b hb
      have hb2 : b ∈ r :: xs := (insertByDesc_perm key r xs).mem_iff.mp hb
      rcases List.mem_cons.mp hb2 with hb2 | hb2
      · subst hb2; exact hx
      · exact h.1 b hb2

theorem foldl_insertByDesc_sorted {α : Type} (key : α → Int) :
    ∀ (l acc : List α), acc.Pairwise (fun a b => key b ≤ key a) →
      (l.foldl (fun acc r => insertByDesc key r acc) acc).Pairwise
        (fun a b => key b ≤ key a) := by
  intro l
  induction l with
  | nil => intro acc h; simpa using h
  | cons h t ih =>
    intro acc hacc
    exact ih _ (insertByDesc_sorted key h hacc)

theorem sortByDesc_sorted {α : Type} (key : α → Int) (l : List α) :
    (sortByDesc key l).Pairwise (fun a b => key b ≤ key a) :=
  foldl_insertByDesc_sorted key l [] (List.Pairwise.nil)

theorem filter_insertByDesc_ne {α : Type} (key : α → Int) (r : α) (c : Int)
    (l : List α) (hkr : key r ≠ c) :
    (insertByDesc key r l).filter (fun x => key x = c) =
      l.filter (fun x => key x = c) := by
  induction l with
  | nil => simp [insertByDesc, hkr]
  | cons x xs ih =>
    unfold insertByDesc
    split
    · simp [hkr]
    · by_cases hx : key x = c
      · simp [List.filter_cons, hx, ih]
      · simp [List.filter_cons, hx, ih]

theorem filter_insertByDesc_eq {α : Type} (key : α → Int) (r : α) (c : Int)
    {l : List α} (hl : l.Pairwise (fun a b => key b ≤ key a))
    (hkr : key r = c) :
    (insertByDesc key r l).filter (fun x => key x = c) =
      l.filter (fun x => key x = c) ++ [r] := by
  induction l with
  | nil => simp [insertByDesc, hkr]
  | cons x xs ih =>
    rw [List.pairwise_cons] at hl
    unfold insertByDesc
    split
    · rename_i hx
      have hnil : (x :: xs).filter (fun y => key y = c) = [] := by
        rw [List.filter_eq_nil_iff]
        intro y hy
        rcases List.mem_cons.mp hy with hy | hy
        · subst hy; simp; omega
        · have := hl.1 y hy; simp; omega
      rw [hnil]
      simp [List.filter_cons, hkr]
      rw [List.filter_cons] at hnil
      revert hnil
      by_cases hxc : key x = c
      · omega
      · simp [hxc]
    · by_cases hx : key x = c
      · simp [List.filter_cons, hx, ih hl.2]
      · simp [List.filter_cons, hx, ih hl.2]

theorem foldl_insertByDesc_filter {α : Type} (key : α → Int) (c : Int) :
    ∀ (l acc : List α), acc.Pairwise (fun a b => key b ≤ key a) →
      (l.foldl (fun acc r => insertByDesc key r acc) acc).filter
          (fun x => key x = c) =
        acc.filter (fun x => key x = c) ++ l.filter (fun x => key x = c) := by
  intro l
  induction l with
  | nil => intro acc h; simp
  | cons h t ih =>
    intro acc hacc
    have hstep := ih (insertByDesc key h acc) (insertByDesc_sorted key h hacc)
    rw [List.foldl_cons, hstep]
    by_cases hc : key h = c
    · rw [filter_insertByDesc_eq key h c hacc hc]
      simp [List.filter_cons, hc]
    · rw [filter_insertByDesc_ne key h c acc hc]
      simp [List.filter_cons, hc]

theorem sortByDesc_filter {α : Type} (key : α → Int) (c : Int) (l : List α) :
    (sortByDesc key l).filter (fun x => key x = c) =
      l.filter (fun x => key x = c) := by
  have h := foldl_insertByDesc_filter key c l [] (List.Pairwise.nil)
  simpa [sortByDesc] using h

/-- Claim C4: `get_cities_above_threshold` fails with
`InvalidArgumentError` exactly on a negative threshold, regardless of
the data; otherwise it returns exactly the records with
`site_count > threshold`, sorted by `site_count` descending, records of
equal count keeping their relative input order (stability stated as
preservation of every equal-count fibre). -/
theorem claim_C4 (data : List ValidRecord) (t : Int) :
    (t < 0 →
      get_cities_above_threshold data t = .error "Threshold cannot be negative") ∧
    (0 ≤ t → ∃ l, get_cities_above_threshold data t = .ok l ∧
      List.Perm l (data.filter (fun r => t < r.num_sites)) ∧
      l.Pairwise (fun a b => b.num_sites ≤ a.num_sites) ∧
      ∀ c : Int, l.filter (fun r => r.num_sites = c) =
        (data.filter (fun r => t < r.num_sites)).filter
          (fun r => r.num_sites = c)) := by
  constructor
  · intro hneg
    simp [get_cities_above_threshold, hneg]
  · intro hpos
    refine ⟨sortByDesc (fun r => r.num_sites)
      (data.filter (fun r => t < r.num_sites)), ?_, ?_, ?_, ?_⟩
    · simp [get_cities_above_threshold, not_lt.mpr hpos]
    · exact sortByDesc_perm _ _
    · exact sortByDesc_sorted _ _
    · intro c
      exact sortByDesc_filter (fun r : ValidRecord => r.num_sites) c _

/-- Witness for C4 on the five-city example with threshold 10. -/
theorem claim_C4_witness :
    ∃ l, get_cities_above_threshold
        [⟨"A", "Ashanti", 25⟩, ⟨"B", "Ashanti", 30⟩, ⟨"C", "Ashanti", 7⟩,
         ⟨"D", "Ashanti", 10⟩, ⟨"E", "Ashanti", 5⟩] 10 = .ok l ∧
      List.Perm l (([⟨"A", "Ashanti", 25⟩, ⟨"B", "Ashanti", 30⟩,
            ⟨"C", "Ashanti", 7⟩, ⟨"D", "Ashanti", 10⟩,
            ⟨"E", "Ashanti", 5⟩] : List ValidRecord).filter
            (fun r => 10 < r.num_sites)) ∧
      l.Pairwise (fun a b => b.num_sites ≤ a.num_sites) ∧
      ∀ c : Int, l.filter (fun r => r.num_sites = c) =
        (([⟨"A", "Ashanti", 25⟩, ⟨"B", "Ashanti", 30⟩, ⟨"C", "Ashanti", 7⟩,
           ⟨"D", "Ashanti", 10⟩, ⟨"E", "Ashanti", 5⟩] : List ValidRecord).filter
          (fun r => 10 < r.num_sites)).filter (fun r => r.num_sites = c) :=
  (claim_C4 _ 10).2 (by decide)

/-! Validator characterization. -/

/-- Claim C2: a row is rejected for exactly one of the six reasons —
missing city, missing region, region not whitelisted, non-numeric
count, negative count, count over 500 — checked in that order, the
first failing check fixing the single reason string; a row passing all
six checks becomes exactly one valid record. -/
theorem claim_C2 (n : Nat) (row : RawRow) :
    (pyStrip row.city = "" →
      validateRow n row = .invalid ⟨n, row, "Missing city name"⟩) ∧
    (pyStrip row.city ≠ "" → pyStrip row.region = "" →
      validateRow n row = .invalid ⟨n, row, "Missing region"⟩) ∧
    (pyStrip row.city ≠ "" → pyStrip row.region ≠ "" →
      pyStrip row.region ∉ validRegions →
      validateRow n row =
        .invalid ⟨n, row, "Invalid region: " ++ pyStrip row.region⟩) ∧
    (pyStrip row.city ≠ "" → pyStrip row.region ≠ "" →
      pyStrip row.region ∈ validRegions →
      parseIntPy (pyStrip row.sites) = none →
      validateRow n row =
        .invalid ⟨n, row, "Non-numeric site count: " ++ pyStrip row.sites⟩) ∧
    (∀ m : Int, pyStrip row.city ≠ "" → pyStrip row.region ≠ "" →
      pyStrip row.region ∈ validRegions →
      parseIntPy (pyStrip row.sites) = some m → m < 0 →
      validateRow n row =
        .invalid ⟨n, row, "Negative site count: " ++ toString m⟩) ∧
    (∀ m : Int, pyStrip row.city ≠ "" → pyStrip row.region ≠ "" →
      pyStrip row.region ∈ validRegions →
      parseIntPy (pyStrip row.sites) = some m → ¬ m < 0 → m > 500 →
      validateRow n row =
        .invalid ⟨n, row, "Unrealistic site count (outlier): " ++ toString m⟩) ∧
    (∀ m : Int, pyStrip row.city ≠ "" → pyStrip row.region ≠ "" →
      pyStrip row.region ∈ validRegions →
      parseIntPy (pyStrip row.sites) = some m → ¬ m < 0 → ¬ m > 500 →
      validateRow n row =
        .valid ⟨pyStrip row.city, pyStrip row.region, m⟩) := by
  refine ⟨?_, ?_, ?_, ?_, ?_, ?_, ?_⟩
  · intro h1; simp [validateRow, h1]
  · intro h1 h2; simp [validateRow, h1, h2]
  · intro h1 h2 h3; simp [validateRow, h1, h2, h3]
  · intro h1 h2 h3 h4; simp [validateRow, h1, h2, h3, h4]
  · intro m h1 h2 h3 h4 h5; simp [validateRow, h1, h2, h3, h4, h5]
  · intro m h1 h2 h3 h4 h5 h6; simp [validateRow, h1, h2, h3, h4, h5, h6]
  · intro m h1 h2 h3 h4 h5 h6; simp [validateRow, h1, h2, h3, h4, h5, h6]

/-- Witness for C2: the pass-all-checks branch at a concrete row. -/
theorem claim_C2_witness :
    validateRow 2 ⟨"Accra", "Greater Accra", "25"⟩ =
      .valid ⟨pyStrip "Accra", pyStrip "Greater Accra", 25⟩ :=
  (claim_C2 2 ⟨"Accra", "Greater Accra", "25"⟩).2.2.2.2.2.2 25
    (by decide) (by decide) (by decide) (by decide) (by decide) (by decide)

/-- A record declared valid by the validator satisfies the data-model
invariant: whitelisted region and a count in `[0, 500]`. -/
theorem validateRow_valid_inv {n : Nat} {row : RawRow} {rec : ValidRecord}
    (h : validateRow n row = .valid rec) :
    rec.city = pyStrip row.city ∧ rec.region = pyStrip row.region ∧
    rec.region ∈ validRegions ∧ 0 ≤ rec.num_sites ∧ rec.num_sites ≤ 500 := by
  simp only [validateRow] at h
  split at h
  · cases h
  · split at h
    · cases h
    · split at h
      · cases h
      · rename_i hcity hregion hwl
        split at h
        · cases h
        · rename_i m hm
          split at h
          · cases h
          · split at h
            · cases h
            · rename_i hneg hbig
              cases h
              refine ⟨rfl, rfl, ?_, ?_, ?_⟩
              · simpa using hwl
              · show (0 : Int) ≤ m
                omega
              · show m ≤ (500 : Int)
                omega

/-- Claim C9: every valid record returned by `load_data` has a
whitelisted region and a site count in `[0, 500]`; the only downstream
operation producing valid records (`get_cities_above_threshold`)
returns a subset of its input, so the invariant is preserved; and a row
whose region is the string Invalid Region never validates. -/
theorem claim_C9 :
    (∀ hs rows v i, load_data hs rows = .ok (v, i) →
      ∀ rec ∈ v, rec.region ∈ validRegions ∧
        0 ≤ rec.num_sites ∧ rec.num_sites ≤ 500) ∧
    (∀ data t l, get_cities_above_threshold data t = .ok l →
      ∀ rec ∈ l, rec ∈ data) ∧
    (∀ n row rec, pyStrip row.region = "Invalid Region" →
      validateRow n row ≠ .valid rec) := by
  refine ⟨?_, ?_, ?_⟩
  · intro hs rows v i h rec hrec
    have hv : v = validsOf rows := by
      unfold load_data at h
      split at h
      · cases h
      · split at h
        · cases h
        · cases h; rfl
    subst hv
    unfold validsOf at hrec
    rw [List.mem_filterMap] at hrec
    obtain ⟨rr, hrr, hmatch⟩ := hrec
    have hval : rr = .valid rec := by
      cases rr with
      | valid v2 => cases hmatch; rfl
      | invalid v2 => cases hmatch
    subst hval
    unfold rowResults at hrr
    rw [List.mem_map] at hrr
    obtain ⟨p, hp, hvr⟩ := hrr
    have := validateRow_valid_inv hvr
    exact ⟨this.2.2.1, this.2.2.2.1, this.2.2.2.2⟩
  · intro data t l h rec hrec
    have hl : l = sortByDesc (fun r => r.num_sites)
        (data.filter (fun r => t < r.num_sites)) := by
      unfold get_cities_above_threshold at h
      split at h
      · cases h
      · cases h; rfl
    subst hl
    have hmem := (sortByDesc_perm (fun r : ValidRecord => r.num_sites)
      (data.filter (fun r => t < r.num_sites))).mem_iff.mp hrec
    exact (List.mem_filter.mp hmem).1
  · intro n row rec hreg h
    have hinv := validateRow_valid_inv h
    rw [hinv.2.1, hreg] at hinv
    have : ("Invalid Region" : String) ∈ validRegions := hinv.2.2.1
    revert this
    decide

/-- Witness for C9: the invariant instantiated on a concrete load. -/
theorem claim_C9_witness :
    (⟨"A", "Ashanti", 5⟩ : ValidRecord).region ∈ validRegions ∧
    0 ≤ (⟨"A", "Ashanti", 5⟩ : ValidRecord).num_sites ∧
    (⟨"A", "Ashanti", 5⟩ : ValidRecord).num_sites ≤ 500 :=
  claim_C9.1 requiredHeaders [⟨"A", "Ashanti", "5"⟩] [⟨"A", "Ashanti", 5⟩] []
    (by decide) ⟨"A", "Ashanti", 5⟩ (by decide)

/-! Batch-level behaviour of the validator. -/

/-- Counterexample to claim C1 as stated: a non-empty input with the
required headers whose only row is malformed (missing city) makes
`load_data` fail the whole operation instead of returning the row as an
`InvalidRecord` — the all-rows-malformed combination aborts the batch. -/
theorem claim_C1_counterexample :
    headersOk requiredHeaders = true ∧
    ([(⟨"", "Ashanti", "5"⟩ : RawRow)] ≠ []) ∧
    load_data requiredHeaders [⟨"", "Ashanti", "5"⟩] =
      .error "No valid data records found in the file" := by
  refine ⟨by decide, by decide, by decide⟩

/-- Claim C1 (amended): `load_data` fails exactly when the required
headers are missing or validation leaves no valid record (which
subsumes the empty row sequence); whenever at least one row validates,
the operation succeeds and every per-row failure is returned as an
`InvalidRecord` instead of being raised. -/
theorem claim_C1_amended (hs : List String) (rows : List RawRow) :
    ((∃ e, load_data hs rows = .error e) ↔
      (headersOk hs = false ∨ validsOf rows = [])) ∧
    (headersOk hs = true → validsOf rows ≠ [] →
      load_data hs rows = .ok (validsOf rows, invalidsOf rows) ∧
      ∀ p ∈ rows.enumFrom 2, ∀ inv, validateRow p.1 p.2 = .invalid inv →
        inv ∈ invalidsOf rows) := by
  constructor
  · constructor
    · rintro ⟨e, he⟩
      unfold load_data at he
      by_cases hh : headersOk hs
      · by_cases hv : (validsOf rows).isEmpty
        · right
          exact List.isEmpty_iff.mp hv
        · simp [hh, hv] at he
      · left
        simpa using hh
    · intro h
      rcases h with hh | hv
      · refine ⟨"CSV file missing required headers", ?_⟩
        simp [load_data, hh]
      · by_cases hh : headersOk hs
        · refine ⟨"No valid data records found in the file", ?_⟩
          simp [load_data, hh, hv]
        · refine ⟨"CSV file missing required headers", ?_⟩
          simp [load_data, hh]
  · intro hh hv
    constructor
    · cases hval : validsOf rows with
      | nil => exact absurd hval hv
      | cons a t => simp [load_data, hh, hval]
    · intro p hp inv hinv
      unfold invalidsOf rowResults
      rw [List.mem_filterMap]
      refine ⟨.invalid inv, ?_, rfl⟩
      rw [List.mem_map]
      exact ⟨p, hp, hinv⟩

/-- Witness for the amended C1: a two-row input (one valid, one with a
missing city) loads successfully. -/
theorem claim_C1_witness :
    load_data requiredHeaders [⟨"A", "Ashanti", "5"⟩, ⟨"", "Ashanti", "7"⟩] =
      .ok (validsOf [⟨"A", "Ashanti", "5"⟩, ⟨"", "Ashanti", "7"⟩],
           invalidsOf [⟨"A", "Ashanti", "5"⟩, ⟨"", "Ashanti", "7"⟩]) :=
  ((claim_C1_amended requiredHeaders
      [⟨"A", "Ashanti", "5"⟩, ⟨"", "Ashanti", "7"⟩]).2
    (by decide) (by decide)).1

/-! Store write lemmas. -/

theorem foldl_applyInsert_sites (ins : List DbInsert) :
    ∀ st : Store, (ins.foldl applyInsert st).galamsay_sites =
      st.galamsay_sites ++ ins.filterMap (fun i => match i with
        | DbInsert.site r => some r
        | _ => none) := by
  induction ins with
  | nil => intro st; simp
  | cons i rest ih =>
    intro st
    cases i <;> simp [applyInsert, ih]

theorem foldl_applyInsert_log (ins : List DbInsert) :
    ∀ st : Store, (ins.foldl applyInsert st).analysis_log =
      st.analysis_log ++ ins.filterMap (fun i => match i with
        | DbInsert.log r => some r
        | _ => none) := by
  induction ins with
  | nil => intro st; simp
  | cons i rest ih =>
    intro st
    cases i <;> simp [applyInsert, ih]

theorem foldl_applyInsert_invalid (ins : List DbInsert) :
    ∀ st : Store, (ins.foldl applyInsert st).invalid_records =
      st.invalid_records ++ ins.filterMap (fun i => match i with
        | DbInsert.invalid r => some r
        | _ => none) := by
  induction ins with
  | nil => intro st; simp
  | cons i rest ih =>
    intro st
    cases i <;> simp [applyInsert, ih]

theorem filterMap_some_fn {A B : Type} (f : A → B) (l : List A) :
    l.filterMap (fun x => some (f x)) = l.map f := by
  induction l <;> simp [*]

theorem filterMap_none_fn {A B : Type} (l : List A) :
    l.filterMap (fun _ => (none : Option B)) = [] := by
  induction l <;> simp [*]

theorem insertsOf_sites (res : AnalysisResults) (bid : String) :
    (insertsOf res bid).filterMap (fun i => match i with
        | DbInsert.site r => some r
        | _ => none) = expectedSites res bid := by
  simp [insertsOf, expectedSites, List.filterMap_append, List.filterMap_map,
    Function.comp_def, filterMap_some_fn, filterMap_none_fn]

theorem insertsOf_log (res : AnalysisResults) (bid : String) :
    (insertsOf res bid).filterMap (fun i => match i with
        | DbInsert.log r => some r
        | _ => none) = [logRowOf res bid] := by
  simp [insertsOf, List.filterMap_append, List.filterMap_map,
    Function.comp_def, filterMap_none_fn]

theorem insertsOf_invalid (res : AnalysisResults) (bid : String) :
    (insertsOf res bid).filterMap (fun i => match i with
        | DbInsert.invalid r => some r
        | _ => none) = expectedInvalid res bid := by
  simp [insertsOf, expectedInvalid, List.filterMap_append, List.filterMap_map,
    Function.comp_def, filterMap_some_fn, filterMap_none_fn]

/-- Claim C6: saving an analysis batch and reading it back by its batch
id reproduces the stored log row exactly — every scalar field and every
serialized collection equals the corresponding field of the saved
results. -/
theorem claim_C6 (res : AnalysisResults) (bid : String) (s : Store)
    (hfresh : ∀ r ∈ s.analysis_log, r.batch_id ≠ bid) :
    get_analysis_by_batch_id bid (save_analysis_to_database res bid s).1 =
      some (logRowOf res bid) ∧
    (logRowOf res bid).total_sites = res.total_sites ∧
    (logRowOf res bid).total_valid_records = res.total_valid_records ∧
    (logRowOf res bid).total_invalid_records = res.total_invalid_records ∧
    (logRowOf res bid).highest_region = res.region_with_highest_sites.1 ∧
    (logRowOf res bid).highest_region_sites =
      res.region_with_highest_sites.2 ∧
    (logRowOf res bid).threshold_used =
      res.cities_above_threshold.threshold ∧
    (logRowOf res bid).cities_above_threshold_count =
      res.cities_above_threshold.count ∧
    (logRowOf res bid).average_per_region_json =
      res.average_sites_per_region ∧
    (logRowOf res bid).region_summary_json = res.region_summary ∧
    (logRowOf res bid).cities_above_threshold_json =
      res.cities_above_threshold.cities := by
  refine ⟨?_, rfl, rfl, rfl, rfl, rfl, rfl, rfl, rfl, rfl, rfl⟩
  have hlog : (save_analysis_to_database res bid s).1.analysis_log =
      s.analysis_log ++ [logRowOf res bid] := by
    unfold save_analysis_to_database
    rw [foldl_applyInsert_log, insertsOf_log, init_log]
  unfold get_analysis_by_batch_id
  rw [hlog, List.filter_append]
  have h1 : s.analysis_log.filter (fun r => r.batch_id = bid) = [] := by
    rw [List.filter_eq_nil_iff]
    intro r hr
    simpa using hfresh r hr
  rw [h1]
  simp [logRowOf]

/-- Witness for C6: round trip of the one-row analysis batch on the
empty store. -/
theorem claim_C6_witness :
    get_analysis_by_batch_id "b1"
        (save_analysis_to_database exRes1 "b1" ⟨[], [], [], [], []⟩).1 =
      some (logRowOf exRes1 "b1") ∧
    (logRowOf exRes1 "b1").total_sites = exRes1.total_sites ∧
    (logRowOf exRes1 "b1").total_valid_records =
      exRes1.total_valid_records ∧
    (logRowOf exRes1 "b1").total_invalid_records =
      exRes1.total_invalid_records ∧
    (logRowOf exRes1 "b1").highest_region =
      exRes1.region_with_highest_sites.1 ∧
    (logRowOf exRes1 "b1").highest_region_sites =
      exRes1.region_with_highest_sites.2 ∧
    (logRowOf exRes1 "b1").threshold_used =
      exRes1.cities_above_threshold.threshold ∧
    (logRowOf exRes1 "b1").cities_above_threshold_count =
      exRes1.cities_above_threshold.count ∧
    (logRowOf exRes1 "b1").average_per_region_json =
      exRes1.average_sites_per_region ∧
    (logRowOf exRes1 "b1").region_summary_json = exRes1.region_summary ∧
    (logRowOf exRes1 "b1").cities_above_threshold_json =
      exRes1.cities_above_threshold.cities :=
  claim_C6 exRes1 "b1" ⟨[], [], [], [], []⟩ (by decide)

/-- Claim C7: the save writes the site rows, the log row and the
invalid rows as one logical unit — if any insert fails the visible
store is unchanged (rollback of the single transaction), and on success
all three collections are visible under the returned batch id. -/
theorem claim_C7 (oracle : Nat → Bool) (res : AnalysisResults)
    (bid : String) (s s2 : Store) (o : Option String)
    (hfresh : bidFresh bid s)
    (hrun : runSaveOracle oracle res bid s = (s2, o)) :
    (o = none → s2.galamsay_sites = s.galamsay_sites ∧
      s2.analysis_log = s.analysis_log ∧
      s2.invalid_records = s.invalid_records) ∧
    (o = some bid →
      s2.galamsay_sites.filter (fun r => r.batch_id = bid) =
        expectedSites res bid ∧
      s2.analysis_log.filter (fun r => r.batch_id = bid) =
        [logRowOf res bid] ∧
      s2.invalid_records.filter (fun r => r.batch_id = bid) =
        expectedInvalid res bid) := by
  obtain ⟨hf1, hf2, hf3⟩ := hfresh
  simp only [runSaveOracle] at hrun
  split at hrun
  · cases hrun
    constructor
    · intro _
      exact ⟨init_sites s, init_log s, init_invalid s⟩
    · intro h
      cases h
  · cases hrun
    constructor
    · intro h
      cases h
    · intro _
      refine ⟨?_, ?_, ?_⟩
      · rw [foldl_applyInsert_sites, insertsOf_sites, init_sites,
          List.filter_append]
        have h1 : s.galamsay_sites.filter (fun r => r.batch_id = bid) = [] := by
          rw [List.filter_eq_nil_iff]
          intro r hr
          simpa using hf1 r hr
        have h2 : (expectedSites res bid).filter
            (fun r => r.batch_id = bid) = expectedSites res bid := by
          rw [List.filter_eq_self]
          intro r hr
          rw [expectedSites, List.mem_map] at hr
          obtain ⟨x, hx, hxr⟩ := hr
          subst hxr
          simp
        rw [h1, h2, List.nil_append]
      · rw [foldl_applyInsert_log, insertsOf_log, init_log,
          List.filter_append]
        have h1 : s.analysis_log.filter (fun r => r.batch_id = bid) = [] := by
          rw [List.filter_eq_nil_iff]
          intro r hr
          simpa using hf2 r hr
        rw [h1]
        simp [logRowOf]
      · rw [foldl_applyInsert_invalid, insertsOf_invalid, init_invalid,
          List.filter_append]
        have h1 : s.invalid_records.filter
            (fun r => r.batch_id = bid) = [] := by
          rw [List.filter_eq_nil_iff]
          intro r hr
          simpa using hf3 r hr
        have h2 : (expectedInvalid res bid).filter
            (fun r => r.batch_id = bid) = expectedInvalid res bid := by
          rw [List.filter_eq_self]
          intro r hr
          rw [expectedInvalid, List.mem_map] at hr
          obtain ⟨x, hx, hxr⟩ := hr
          subst hxr
          simp
        rw [h1, h2, List.nil_append]

/-- Witness for C7: a failure-free save of the one-row batch on the
empty store makes all three collections visible under the batch id. -/
theorem claim_C7_witness :
    ((runSaveOracle (fun _ => false) exRes1 "b1"
        ⟨[], [], [], [], []⟩).1.galamsay_sites.filter
      (fun r => r.batch_id = "b1") = expectedSites exRes1 "b1") ∧
    ((runSaveOracle (fun _ => false) exRes1 "b1"
        ⟨[], [], [], [], []⟩).1.analysis_log.filter
      (fun r => r.batch_id = "b1") = [logRowOf exRes1 "b1"]) ∧
    ((runSaveOracle (fun _ => false) exRes1 "b1"
        ⟨[], [], [], [], []⟩).1.invalid_records.filter
      (fun r => r.batch_id = "b1") = expectedInvalid exRes1 "b1") :=
  (claim_C7 (fun _ => false) exRes1 "b1" ⟨[], [], [], [], []⟩ _ _
    (by decide) rfl).2 (by decide)

/-! Insertion-ordered dict lemmas. -/

theorem alook_updD_self {β : Type} (m : List (String × β)) (k : String)
    (f : β → β) (d : β) :
    alook (updD m k f d) k = some (f ((alook m k).getD d)) := by
  induction m with
  | nil => simp [updD, alook]
  | cons p rest ih =>
    obtain ⟨k1, v⟩ := p
    by_cases h : k1 = k
    · subst h
      simp [updD, alook]
    · simp [updD, alook, h, ih]

theorem alook_updD_other {β : Type} (m : List (String × β)) (k k2 : String)
    (f : β → β) (d : β) (h : k2 ≠ k) :
    alook (updD m k f d) k2 = alook m k2 := by
  have hne : ¬ k = k2 := fun hh => h hh.symm
  induction m with
  | nil => simp [updD, alook, hne]
  | cons p rest ih =>
    obtain ⟨k1, v⟩ := p
    by_cases h1 : k1 = k
    · subst h1
      simp [updD, alook, hne]
    · by_cases h2 : k1 = k2
      · subst h2
        simp [updD, alook, h1]
      · simp [updD, alook, h1, h2, ih]

theorem regionCounts_cons_eq {h : ValidRecord} {r : String}
    (t : List ValidRecord) (hr : h.region = r) :
    regionCounts (h :: t) r = h.num_sites :: regionCounts t r := by
  simp [regionCounts, List.filter_cons, hr]

theorem regionCounts_cons_ne {h : ValidRecord} {r : String}
    (t : List ValidRecord) (hr : ¬ h.region = r) :
    regionCounts (h :: t) r = regionCounts t r := by
  simp [regionCounts, List.filter_cons, hr]

theorem foldl_stepG_alook_some (data : List ValidRecord) :
    ∀ (m : List (String × List Int)) (r : String) (l : List Int),
      alook m r = some l →
      alook (data.foldl stepG m) r = some (l ++ regionCounts data r) := by
  induction data with
  | nil => intro m r l hm; simp [regionCounts, hm]
  | cons h t ih =>
    intro m r l hm
    rw [List.foldl_cons]
    by_cases hr : h.region = r
    · have hm2 : alook (stepG m h) r = some (l ++ [h.num_sites]) := by
        unfold stepG
        rw [hr, alook_updD_self, hm]
        rfl
      rw [ih _ _ _ hm2, regionCounts_cons_eq t hr]
      simp
    · have hm2 : alook (stepG m h) r = some l := by
        unfold stepG
        rw [alook_updD_other _ _ _ _ _ (fun hh => hr hh.symm), hm]
      rw [ih _ _ _ hm2, regionCounts_cons_ne t hr]

theorem foldl_stepG_alook_none (data : List ValidRecord) :
    ∀ (m : List (String × List Int)) (r : String),
      alook m r = none →
      alook (data.foldl stepG m) r =
        if (data.any fun x => x.region = r) = true
        then some (regionCounts data r) else none := by
  induction data with
  | nil => intro m r hm; simp [hm]
  | cons h t ih =>
    intro m r hm
    rw [List.foldl_cons]
    by_cases hr : h.region = r
    · have hm2 : alook (stepG m h) r = some [h.num_sites] := by
        unfold stepG
        rw [hr, alook_updD_self, hm]
        rfl
      rw [foldl_stepG_alook_some t _ _ _ hm2, regionCounts_cons_eq t hr]
      simp [hr]
    · have hm2 : alook (stepG m h) r = none := by
        unfold stepG
        rw [alook_updD_other _ _ _ _ _ (fun hh => hr hh.symm), hm]
      rw [ih _ _ hm2, regionCounts_cons_ne t hr]
      simp [hr]

theorem alook_buildGroups (data : List ValidRecord) (r : String) :
    alook (buildGroups data) r =
      if (data.any fun x => x.region = r) = true
      then some (regionCounts data r) else none :=
  foldl_stepG_alook_none data [] r rfl

theorem alook_map_avg (m : List (String × List Int)) (r : String) :
    alook (m.map (fun p => (p.1, pyAvg p.2.sum p.2.length))) r =
      (alook m r).map (fun l => pyAvg l.sum l.length) := by
  induction m with
  | nil => simp [alook]
  | cons p rest ih =>
    obtain ⟨k1, v⟩ := p
    by_cases hk : k1 = r <;> simp [alook, hk, ih]

/-- Counterexample to claim C5 as stated: on forty Ashanti records
with mean 107/40 = 2.675 the program computes `round` on the binary
double nearest the mean, which lies below the tie, and stores the
double nearest 2.67 — while the arithmetic mean rounded exactly to two
decimals (half to even) is 2.68.  The stored value
1503076375634903 / 2^49 is the binary64 value of 2.67, bit-for-bit
what CPython returns for `round(107/40, 2)`. -/
theorem claim_C5_counterexample :
    get_average_sites_per_region exRows40 =
      [("Ashanti", mkRat 1503076375634903 562949953421312)] ∧
    round2q ((107 : Rat) / (40 : Rat)) = (268 : Rat) / 100 ∧
    mkRat 1503076375634903 562949953421312 ≠ (268 : Rat) / 100 := by
  refine ⟨by decide, ?_, ?_⟩
  · have h1 : ((107 : Rat) / 40) * 100 = 535 / 2 := by norm_num
    have h2 : ⌊(535 : Rat) / 2⌋ = 267 := by
      rw [Int.floor_eq_iff]
      constructor <;> norm_num
    simp only [round2q, h1, h2]
    norm_num
  · intro h
    rw [Rat.mkRat_eq_div] at h
    norm_num at h

/-- Claim C5 (amended): `get_average_sites_per_region` maps every
region occurring in the input to the host rounding of that region's
mean — the binary64 mean of its site counts rounded to two decimals by
the host (round-half-even on the double's exact value, stored as a
double) — maps nothing else, returns the empty mapping on empty input,
and on the three-record Ashanti example returns exactly the mean 11. -/
theorem claim_C5_amended :
    (∀ (data : List ValidRecord) (r : String),
      alook (get_average_sites_per_region data) r =
        if (data.any fun x => x.region = r) = true
        then some (pyAvg (regionCounts data r).sum
          (regionCounts data r).length)
        else none) ∧
    get_average_sites_per_region [] = [] ∧
    get_average_sites_per_region
      [⟨"A", "Ashanti", 10⟩, ⟨"B", "Ashanti", 11⟩, ⟨"C", "Ashanti", 12⟩] =
      [("Ashanti", 11)] := by
  refine ⟨?_, rfl, by decide⟩
  intro data r
  cases data with
  | nil => simp [get_average_sites_per_region, alook]
  | cons h t =>
    rw [show get_average_sites_per_region (h :: t) =
        (buildGroups (h :: t)).map
          (fun p => (p.1, pyAvg p.2.sum p.2.length)) from rfl]
    rw [alook_map_avg, alook_buildGroups]
    by_cases hany : (((h :: t).any fun x => x.region = r) = true)
    · rw [if_pos hany, if_pos hany]
      rfl
    · rw [if_neg hany, if_neg hany]
      rfl

/-! Region-total dict lemmas. -/

theorem regionTotal_cons_eq {h : ValidRecord} {r : String}
    (t : List ValidRecord) (hr : h.region = r) :
    regionTotal (h :: t) r = h.num_sites + regionTotal t r := by
  rw [regionTotal, regionTotal, regionCounts_cons_eq t hr, List.sum_cons]

theorem regionTotal_cons_ne {h : ValidRecord} {r : String}
    (t : List ValidRecord) (hr : ¬ h.region = r) :
    regionTotal (h :: t) r = regionTotal t r := by
  rw [regionTotal, regionTotal, regionCounts_cons_ne t hr]

theorem foldl_stepT_alook_some (data : List ValidRecord) :
    ∀ (m : List (String × Int)) (r : String) (v : Int),
      alook m r = some v →
      alook (data.foldl stepT m) r = some (v + regionTotal data r) := by
  induction data with
  | nil => intro m r v hm; simp [regionTotal, regionCounts, hm]
  | cons h t ih =>
    intro m r v hm
    rw [List.foldl_cons]
    by_cases hr : h.region = r
    · have hm2 : alook (stepT m h) r = some (v + h.num_sites) := by
        unfold stepT
        rw [hr, alook_updD_self, hm]
        rfl
      rw [ih _ _ _ hm2, regionTotal_cons_eq t hr]
      have : v + h.num_sites + regionTotal t r =
          v + (h.num_sites + regionTotal t r) := by ring
      rw [this]
    · have hm2 : alook (stepT m h) r = some v := by
        unfold stepT
        rw [alook_updD_other _ _ _ _ _ (fun hh => hr hh.symm), hm]
      rw [ih _ _ _ hm2, regionTotal_cons_ne t hr]

theorem foldl_stepT_alook_none (data : List ValidRecord) :
    ∀ (m : List (String × Int)) (r : String),
      alook m r = none →
      alook (data.foldl stepT m) r =
        if (data.any fun x => x.region = r) = true
        then some (regionTotal data r) else none := by
  induction data with
  | nil => intro m r hm; simp [hm]
  | cons h t ih =>
    intro m r hm
    rw [List.foldl_cons]
    by_cases hr : h.region = r
    · have hm2 : alook (stepT m h) r = some (0 + h.num_sites) := by
        unfold stepT
        rw [hr, alook_updD_self, hm]
        rfl
      rw [foldl_stepT_alook_some t _ _ _ hm2, regionTotal_cons_eq t hr]
      have hany : ((h :: t).any fun x => x.region = r) = true := by
        simp [hr]
      rw [if_pos hany]
      have : 0 + h.num_sites + regionTotal t r =
          h.num_sites + regionTotal t r := by ring
      rw [this]
    · have hm2 : alook (stepT m h) r = none := by
        unfold stepT
        rw [alook_updD_other _ _ _ _ _ (fun hh => hr hh.symm), hm]
      rw [ih _ _ hm2, regionTotal_cons_ne t hr]
      simp [hr]

theorem alook_buildTotals (data : List ValidRecord) (r : String) :
    alook (buildTotals data) r =
      if (data.any fun x => x.region = r) = true
      then some (regionTotal data r) else none :=
  foldl_stepT_alook_none data [] r rfl

theorem updD_keys {β : Type} (m : List (String × β)) (k : String)
    (f : β → β) (d : β) :
    keysOf (updD m k f d) =
      if k ∈ keysOf m then keysOf m else keysOf m ++ [k] := by
  induction m with
  | nil => simp [updD, keysOf]
  | cons p rest ih =>
    obtain ⟨k1, v⟩ := p
    by_cases h : k1 = k
    · subst h
      simp [updD, keysOf]
    · have hns : ¬ k = k1 := fun hh => h hh.symm
      have hstep : keysOf (updD ((k1, v) :: rest) k f d) =
          k1 :: keysOf (updD rest k f d) := by
        simp [updD, keysOf, h]
      have hmm : (k ∈ keysOf ((k1, v) :: rest)) ↔ (k ∈ keysOf rest) := by
        simp [keysOf, List.mem_cons, hns]
      rw [hstep, ih]
      by_cases hmem : k ∈ keysOf rest
      · rw [if_pos hmem, if_pos (hmm.mpr hmem)]
        simp [keysOf]
      · rw [if_neg hmem, if_neg (fun hh => hmem (hmm.mp hh))]
        simp [keysOf]

theorem foldl_stepT_keys (data : List ValidRecord) :
    ∀ m : List (String × Int),
      keysOf (data.foldl stepT m) =
        keysOf m ++ dedupAux (data.map fun x => x.region) (keysOf m) := by
  induction data with
  | nil => intro m; simp [dedupAux]
  | cons h t ih =>
    intro m
    rw [List.foldl_cons, List.map_cons]
    by_cases hmem : h.region ∈ keysOf m
    · have hk : keysOf (stepT m h) = keysOf m := by
        rw [stepT, updD_keys, if_pos hmem]
      rw [ih, hk, dedupAux, if_pos hmem]
    · have hk : keysOf (stepT m h) = keysOf m ++ [h.region] := by
        rw [stepT, updD_keys, if_neg hmem]
      rw [ih, hk, dedupAux, if_neg hmem, List.append_assoc,
        List.singleton_append]

theorem keys_buildTotals (data : List ValidRecord) :
    keysOf (buildTotals data) = dedupFirst (data.map fun x => x.region) := by
  have h := foldl_stepT_keys data []
  simpa [keysOf, dedupFirst] using h

theorem mem_dedupAux {x : String} :
    ∀ (l seen : List String), x ∈ dedupAux l seen → x ∉ seen := by
  intro l
  induction l with
  | nil => intro seen h; cases h
  | cons y t ih =>
    intro seen h
    rw [dedupAux] at h
    split at h
    · exact ih seen h
    · rename_i hy
      rcases List.mem_cons.mp h with h1 | h1
      · subst h1; exact hy
      · intro hx
        exact ih (seen ++ [y]) h1 (List.mem_append_left _ hx)

theorem dedupAux_nodup : ∀ (l seen : List String), (dedupAux l seen).Nodup := by
  intro l
  induction l with
  | nil => intro seen; simp [dedupAux]
  | cons y t ih =>
    intro seen
    rw [dedupAux]
    split
    · exact ih seen
    · refine List.nodup_cons.mpr ⟨?_, ih (seen ++ [y])⟩
      intro hy
      exact mem_dedupAux t (seen ++ [y]) hy (List.mem_append_right _ (by simp))

theorem alook_isSome_of_mem {β : Type} :
    ∀ (m : List (String × β)) (k : String) (v : β),
      (k, v) ∈ m → alook m k ≠ none := by
  intro m
  induction m with
  | nil => intro k v h; cases h
  | cons p rest ih =>
    intro k v h
    obtain ⟨k1, v1⟩ := p
    rcases List.mem_cons.mp h with h1 | h1
    · cases h1
      simp [alook]
    · by_cases hk : k1 = k
      · simp [alook, hk]
      · rw [alook, if_neg hk]
        exact ih k v h1

theorem alook_of_mem_nodup {β : Type} :
    ∀ (m : List (String × β)) (k : String) (v : β),
      (keysOf m).Nodup → (k, v) ∈ m → alook m k = some v := by
  intro m
  induction m with
  | nil => intro k v _ h; cases h
  | cons p rest ih =>
    intro k v hnd h
    obtain ⟨k1, v1⟩ := p
    rw [keysOf, List.map_cons, List.nodup_cons] at hnd
    rcases List.mem_cons.mp h with h1 | h1
    · cases h1
      simp [alook]
    · by_cases hk : k1 = k
      · subst hk
        exfalso
        apply hnd.1
        rw [← keysOf]
        exact List.mem_map.mpr ⟨(k1, v), h1, rfl⟩
      · rw [alook, if_neg hk]
        exact ih k v hnd.2 h1

theorem alook_mem {β : Type} :
    ∀ (m : List (String × β)) (k : String) (v : β),
      alook m k = some v → (k, v) ∈ m := by
  intro m
  induction m with
  | nil => intro k v h; cases h
  | cons p rest ih =>
    intro k v h
    obtain ⟨k1, v1⟩ := p
    rw [alook] at h
    split at h
    · rename_i hk
      cases h
      subst hk
      exact List.mem_cons_self _ _
    · exact List.mem_cons_of_mem _ (ih k v h)

theorem le_maxPair : ∀ (t : List (String × Int)) (h : String × Int),
    h.2 ≤ (maxPair h t).2 := by
  intro t
  induction t with
  | nil => intro h; exact le_refl _
  | cons x t ih =>
    intro h
    rw [show maxPair h (x :: t) =
        maxPair (if h.2 < x.2 then x else h) t from rfl]
    by_cases hx : h.2 < x.2
    · rw [if_pos hx]
      exact le_trans (le_of_lt hx) (ih x)
    · rw [if_neg hx]
      exact ih h

theorem maxPair_split : ∀ (t : List (String × Int)) (h : String × Int),
    ∃ l1 l2, h :: t = l1 ++ maxPair h t :: l2 ∧
      (∀ p ∈ l1, p.2 < (maxPair h t).2) ∧
      (∀ p ∈ l2, p.2 ≤ (maxPair h t).2) := by
  intro t
  induction t with
  | nil =>
    intro h
    exact ⟨[], [], rfl, by simp, by simp⟩
  | cons x t ih =>
    intro h
    have hunf : maxPair h (x :: t) = maxPair (if h.2 < x.2 then x else h) t :=
      rfl
    by_cases hx : h.2 < x.2
    · rw [hunf, if_pos hx]
      obtain ⟨l1, l2, hdec, hlt, hle⟩ := ih x
      refine ⟨h :: l1, l2, ?_, ?_, hle⟩
      · rw [List.cons_append, ← hdec]
      · intro p hp
        rcases List.mem_cons.mp hp with hp1 | hp1
        · subst hp1
          exact lt_of_lt_of_le hx (le_maxPair t x)
        · exact hlt p hp1
    · rw [hunf, if_neg hx]
      push_neg at hx
      obtain ⟨l1, l2, hdec, hlt, hle⟩ := ih h
      cases l1 with
      | nil =>
        rw [List.nil_append] at hdec
        have hh : h = maxPair h t := (List.cons.injEq _ _ _ _).mp hdec |>.1
        have ht : t = l2 := (List.cons.injEq _ _ _ _).mp hdec |>.2
        refine ⟨[], x :: l2, ?_, by simp, ?_⟩
        · rw [List.nil_append, ← hh, ← ht]
        · intro p hp
          rcases List.mem_cons.mp hp with hp1 | hp1
          · subst hp1
            rw [← hh]
            exact hx
          · exact hle p hp1
      | cons a l1t =>
        rw [List.cons_append] at hdec
        have hh : h = a := (List.cons.injEq _ _ _ _).mp hdec |>.1
        have ht : t = l1t ++ maxPair h t :: l2 :=
          (List.cons.injEq _ _ _ _).mp hdec |>.2
        refine ⟨h :: x :: l1t, l2, ?_, ?_, hle⟩
        · rw [List.cons_append, List.cons_append, ← ht]
        · intro p hp
          have hhlt : h.2 < (maxPair h t).2 := by
            conv_lhs => rw [hh]
            exact hlt a (List.mem_cons_self _ _)
          rcases List.mem_cons.mp hp with hp1 | hp1
          · subst hp1
            exact hhlt
          · rcases List.mem_cons.mp hp1 with hp2 | hp2
            · subst hp2
              exact lt_of_le_of_lt hx hhlt
            · exact hlt p (List.mem_cons_of_mem _ hp2)

theorem takeWhile_append_eq {p : String → Bool} :
    ∀ (a : List String) (b : String) (c : List String),
      (∀ x ∈ a, p x = true) → p b = false →
      (a ++ b :: c).takeWhile p = a := by
  intro a
  induction a with
  | nil =>
    intro b c _ hb
    simp [List.takeWhile_cons, hb]
  | cons y t ih =>
    intro b c ha hb
    rw [List.cons_append, List.takeWhile_cons,
      ha y (List.mem_cons_self _ _)]
    simp only [if_true]
    rw [ih b c (fun x hx => ha x (List.mem_cons_of_mem _ hx)) hb]

/-- Claim C3: `get_region_with_highest_sites` fails with
`EmptyInputError` on empty input; on non-empty input it returns a
region together with its summed site count, that sum is maximal among
all region totals, every region first encountered before the winner has
a strictly smaller total (ties broken by first-encountered insertion
order), and the Ashanti example returns `("Ashanti", 40)`. -/
theorem claim_C3 :
    (get_region_with_highest_sites [] =
      .error "Cannot determine highest region from empty data") ∧
    (∀ data : List ValidRecord, data ≠ [] →
      ∃ r t, get_region_with_highest_sites data = .ok (r, t) ∧
        (data.any fun x => x.region = r) = true ∧
        t = regionTotal data r ∧
        (∀ q, (data.any fun x => x.region = q) = true →
          regionTotal data q ≤ t) ∧
        (∀ q, q ∈ (dedupFirst (data.map fun x => x.region)).takeWhile
            (fun z => z ≠ r) → regionTotal data q < t)) ∧
    get_region_with_highest_sites
      [⟨"A", "Ashanti", 25⟩, ⟨"B", "Ashanti", 15⟩,
       ⟨"C", "Greater Accra", 30⟩] = .ok ("Ashanti", 40) := by
  refine ⟨rfl, ?_, by decide⟩
  intro data hne
  cases data with
  | nil => exact absurd rfl hne
  | cons d dt =>
    have hkeys : keysOf (buildTotals (d :: dt)) =
        dedupFirst ((d :: dt).map fun x => x.region) := keys_buildTotals _
    have hbt_ne : buildTotals (d :: dt) ≠ [] := by
      intro hbt
      rw [hbt, List.map_cons] at hkeys
      simp [keysOf, dedupFirst, dedupAux] at hkeys
    cases hbt : buildTotals (d :: dt) with
    | nil => exact absurd hbt hbt_ne
    | cons h0 t0 =>
      have hresult : get_region_with_highest_sites (d :: dt) =
          .ok (maxPair h0 t0) := by
        have e1 : get_region_with_highest_sites (d :: dt) =
            (match buildTotals (d :: dt) with
             | [] => Except.error "max() arg is an empty sequence"
             | h :: t => Except.ok (maxPair h t)) := rfl
        rw [e1, hbt]
      have hnodup : (keysOf (buildTotals (d :: dt))).Nodup := by
        rw [hkeys]
        exact dedupAux_nodup _ _
      obtain ⟨l1, l2, hdec, hlt, hle⟩ := maxPair_split t0 h0
      have hmem_m : maxPair h0 t0 ∈ buildTotals (d :: dt) := by
        rw [hbt, hdec]
        exact List.mem_append.mpr (Or.inr (List.mem_cons_self _ _))
      have halook_m : alook (buildTotals (d :: dt)) (maxPair h0 t0).1 =
          some (maxPair h0 t0).2 :=
        alook_of_mem_nodup _ _ _ hnodup hmem_m
      have hchar := alook_buildTotals (d :: dt) (maxPair h0 t0).1
      have hany_m : ((d :: dt).any
          fun x => x.region = (maxPair h0 t0).1) = true := by
        by_contra hno
        rw [hchar, if_neg hno] at halook_m
        cases halook_m
      have hval : (maxPair h0 t0).2 = regionTotal (d :: dt) (maxPair h0 t0).1 := by
        rw [hchar, if_pos hany_m] at halook_m
        exact ((Option.some.injEq _ _).mp halook_m).symm
      refine ⟨(maxPair h0 t0).1, (maxPair h0 t0).2, by rw [hresult], hany_m,
        hval, ?_, ?_⟩
      · intro q hq
        have hq_alook : alook (buildTotals (d :: dt)) q =
            some (regionTotal (d :: dt) q) := by
          rw [alook_buildTotals, if_pos hq]
        have hq_mem := alook_mem _ _ _ hq_alook
        rw [hbt, hdec] at hq_mem
        rcases List.mem_append.mp hq_mem with h1 | h1
        · exact le_of_lt (hlt _ h1)
        · rcases List.mem_cons.mp h1 with h2 | h2
          · rw [← h2]
          · exact hle _ h2
      · intro q hq
        have hkdec : keysOf (buildTotals (d :: dt)) =
            keysOf l1 ++ (maxPair h0 t0).1 :: keysOf l2 := by
          rw [hbt, hdec]
          simp [keysOf]
        have hnodup2 := hnodup
        rw [hkdec] at hnodup2
        have hm_notin_l1 : (maxPair h0 t0).1 ∉ keysOf l1 := by
          intro hin
          rw [List.nodup_append] at hnodup2
          exact hnodup2.2.2 hin (List.mem_cons_self _ _)
        have htake : (dedupFirst ((d :: dt).map fun x => x.region)).takeWhile
            (fun z => z ≠ (maxPair h0 t0).1) = keysOf l1 := by
          rw [← hkeys, hkdec]
          apply takeWhile_append_eq
          · intro x hx
            have hxm : x ≠ (maxPair h0 t0).1 :=
              fun hxe => hm_notin_l1 (hxe ▸ hx)
            simp [hxm]
          · simp
        rw [htake] at hq
        rw [keysOf, List.mem_map] at hq
        obtain ⟨p0, hp0, hp0q⟩ := hq
        have hp0_pair : (q, p0.2) = p0 := by
          rw [← hp0q]
        have hq_alook2 : alook (buildTotals (d :: dt)) q = some p0.2 := by
          apply alook_of_mem_nodup _ _ _ hnodup
          rw [hp0_pair, hbt, hdec]
          exact List.mem_append.mpr (Or.inl hp0)
        have hchar_q := alook_buildTotals (d :: dt) q
        have hany_q : ((d :: dt).any fun x => x.region = q) = true := by
          by_contra hno
          rw [hchar_q, if_neg hno] at hq_alook2
          cases hq_alook2
        have htot_q : regionTotal (d :: dt) q = p0.2 := by
          rw [hchar_q, if_pos hany_q] at hq_alook2
          exact (Option.some.injEq _ _).mp hq_alook2
        rw [htot_q]
        exact hlt p0 hp0

/-- Witness for C3 at the three-record Ashanti example. -/
theorem claim_C3_witness :
    ∃ r t, get_region_with_highest_sites
        [⟨"A", "Ashanti", 25⟩, ⟨"B", "Ashanti", 15⟩,
         ⟨"C", "Greater Accra", 30⟩] = .ok (r, t) ∧
      (([⟨"A", "Ashanti", 25⟩, ⟨"B", "Ashanti", 15⟩,
         ⟨"C", "Greater Accra", 30⟩] : List ValidRecord).any
        fun x => x.region = r) = true ∧
      t = regionTotal [⟨"A", "Ashanti", 25⟩, ⟨"B", "Ashanti", 15⟩,
        ⟨"C", "Greater Accra", 30⟩] r ∧
      (∀ q, (([⟨"A", "Ashanti", 25⟩, ⟨"B", "Ashanti", 15⟩,
          ⟨"C", "Greater Accra", 30⟩] : List ValidRecord).any
          fun x => x.region = q) = true →
        regionTotal [⟨"A", "Ashanti", 25⟩, ⟨"B", "Ashanti", 15⟩,
          ⟨"C", "Greater Accra", 30⟩] q ≤ t) ∧
      (∀ q, q ∈ (dedupFirst (([⟨"A", "Ashanti", 25⟩, ⟨"B", "Ashanti", 15⟩,
          ⟨"C", "Greater Accra", 30⟩] : List ValidRecord).map
            fun x => x.region)).takeWhile (fun z => z ≠ r) →
        regionTotal [⟨"A", "Ashanti", 25⟩, ⟨"B", "Ashanti", 15⟩,
          ⟨"C", "Greater Accra", 30⟩] q < t) :=
  claim_C3.2.1 [⟨"A", "Ashanti", 25⟩, ⟨"B", "Ashanti", 15⟩,
    ⟨"C", "Greater Accra", 30⟩] (by decide)
